import Mathlib

/-!
Shallow embedding of the bionic-reading text transform of `src/gui.py`
(class `GUI`, methods `process_text` and `_process_word`, together with the
`TextOptions` record that carries the `bionic_ratio` parameter).

Modelling conventions:

* Python strings are `List Char`.
* A Python `float` is modelled by `PyFloat`: a finite double is embedded as
  the exact rational value it denotes (every finite IEEE-754 double is a
  rational; the ratios appearing in the claims are small dyadics, for which
  the product `len(word) * ratio` is computed exactly by the hardware), and
  the non-finite values `nan`, `inf`, `-inf` are explicit constructors.
* `math.ceil(x)` on a float raises `ValueError` for NaN and `OverflowError`
  for infinities; fallible evaluation is modelled with `Except String`.
  In Python `0 * inf = nan` and `n * inf = ±inf` for `n > 0`, so
  `math.ceil(len(word) * ratio)` raises for every non-finite `ratio`.
* Python slicing `w[:i]` / `w[i:]` with an arbitrary integer `i` resolves
  `i` to the effective index `min i n` when `i ≥ 0` and `max 0 (n + i)`
  when `i < 0`; both slices use the same effective index.
-/

/-- A Python float: a finite value (embedded as its exact rational value),
or one of the non-finite values. -/
inductive PyFloat where
  | finite (q : ℚ)
  | inf
  | ninf
  | nan
deriving DecidableEq, Repr

/-- `math.ceil(n * ratio)` as executed by `_process_word` in `src/gui.py`
line 198: the product of a nonnegative integer length with a float, passed
to `math.ceil`.  For `nan` the product is `nan` and `math.ceil` raises
`ValueError`; for `±inf` the product is `nan` when `n = 0` (raising
`ValueError`) and `±inf` otherwise (raising `OverflowError`). -/
def ceilMul (n : ℕ) (r : PyFloat) : Except String ℤ :=
  match r with
  | .finite q => .ok ⌈(n : ℚ) * q⌉
  | .inf => .error (if n = 0 then "ValueError" else "OverflowError")
  | .ninf => .error (if n = 0 then "ValueError" else "OverflowError")
  | .nan => .error "ValueError"

/-- The effective index Python uses for the slices `w[:i]` and `w[i:]` of a
string of length `n`: nonnegative `i` is capped at `n`, negative `i` counts
from the end and is floored at `0` (natural subtraction truncates at `0`). -/
def pySliceIdx (n : ℕ) (i : ℤ) : ℕ :=
  if 0 ≤ i then min i.toNat n else n - (-i).toNat

/-- `GUI._process_word` (`src/gui.py` lines 187-200): computes
`idx_bold = math.ceil(len(word) * ratio)` and returns the pair
`(word[:idx_bold], word[idx_bold:])`.  The ratio is read from
`TextOptions.bionic_ratio`; here it is passed explicitly. -/
def process_word (word : List Char) (ratio : PyFloat) :
    Except String (List Char × List Char) :=
  match ceilMul word.length ratio with
  | .error e => .error e
  | .ok idx =>
      .ok (word.take (pySliceIdx word.length idx),
           word.drop (pySliceIdx word.length idx))

/-- Python `text.split("\n")`: split on every newline character, keeping
empty pieces; the empty string yields `[""]`. -/
def splitNL : List Char → List (List Char)
  | [] => [[]]
  | c :: cs =>
      if c = '\n' then [] :: splitNL cs
      else
        match splitNL cs with
        | [] => [[c]]
        | p :: ps => (c :: p) :: ps

/-- Whitespace characters recognised by Python `str.split()` with no
arguments (the ASCII ones; no other character occurs in the claims). -/
def isPySpace (c : Char) : Bool :=
  c = ' ' || c = '\t' || c = '\n' || c = '\r' || c = '\x0b' || c = '\x0c'

/-- Helper for `pySplit`: `acc` is the current word accumulated in reverse. -/
def pySplitAux : List Char → List Char → List (List Char)
  | acc, [] => if acc = [] then [] else [acc.reverse]
  | acc, c :: cs =>
      if isPySpace c then
        if acc = [] then pySplitAux [] cs
        else acc.reverse :: pySplitAux [] cs
      else pySplitAux (c :: acc) cs

/-- Python `paragraph.split()`: split on runs of whitespace, discarding
empty tokens (`src/gui.py` line 166). -/
def pySplit (s : List Char) : List (List Char) :=
  pySplitAux [] s

/-- The text-to-styled-segments transform performed by `GUI.process_text`
(`src/gui.py` lines 164-185): split the input into paragraphs on `"\n"`,
split each paragraph into words on whitespace (the commented-out
punctuation pass leaves `list_words_final = list_words`), and process each
word with `_process_word`.  An exception from `math.ceil` aborts the whole
call, which `Except` models by `List.mapM` stopping at the first error. -/
def transform (text : List Char) (ratio : PyFloat) :
    Except String (List (List (List Char × List Char))) :=
  (splitNL text).mapM fun para =>
    (pySplit para).mapM fun w => process_word w ratio

/-- The effective bold-segment length produced for a word of length `n` at
the finite ratio `q`: the slice index `math.ceil(n * q)` resolved by Python
slicing. -/
def boldIdx (n : ℕ) (q : ℚ) : ℕ :=
  pySliceIdx n ⌈(n : ℚ) * q⌉

/-- The pair `(word[:idx_bold], word[idx_bold:])` computed by
`_process_word` for a finite ratio (the branch of `process_word` in which
`math.ceil` does not raise). -/
def splitWord (w : List Char) (q : ℚ) : List Char × List Char :=
  (w.take (boldIdx w.length q), w.drop (boldIdx w.length q))

/-- The value `transform` computes for a finite ratio, as a pure
double map over paragraphs and words. -/
def pureTransform (text : List Char) (q : ℚ) :
    List (List (List Char × List Char)) :=
  (splitNL text).map fun para => (pySplit para).map fun w => splitWord w q

/-- The `TextOptions` dataclass of `src/gui.py` lines 16-26 (the
`list_fonts` class attribute carries no state relevant to the transform). -/
structure TextOptions where
  font : List Char
  size : ℤ
  spacing : ℤ
  bionic_ratio : PyFloat
deriving DecidableEq

/-- The state of the `GUI` object touched by `process_text`: the input
text widget contents, the options record, and the output text widget
contents. -/
structure GUIState where
  input_text : List Char
  textOptions : TextOptions
  output_text : List Char
deriving DecidableEq

/-- The output-widget contents produced for one paragraph: for each word,
the bold part, the normal part, and a single space (`src/gui.py`
lines 179-183). -/
def renderPara (segs : List (List Char × List Char)) : List Char :=
  segs.foldr (fun s acc => s.1 ++ s.2 ++ ' ' :: acc) []

/-- The full output-widget contents: each rendered paragraph followed by
the `"\n\n"` separator (`src/gui.py` line 185). -/
def render (out : List (List (List Char × List Char))) : List Char :=
  out.foldr (fun p acc => renderPara p ++ '\n' :: '\n' :: acc) []

/-- `GUI.process_text` as a state transformer: reads the input text and
the current `bionic_ratio`, writes the rendered result to the output
widget, and touches nothing else (`src/gui.py` lines 149-185).  An
exception from `math.ceil` propagates out of the call. -/
def process_text (s : GUIState) : Except String GUIState :=
  match transform s.input_text s.textOptions.bionic_ratio with
  | .error e => .error e
  | .ok out => .ok { s with output_text := render out }

/-! ### Helper lemmas -/

theorem mapM_loop_ok {α β : Type} (f : α → β) :
    ∀ (l : List α) (acc : List β),
      (List.mapM.loop (fun a => Except.ok (f a)) l acc : Except String (List β)) =
        .ok (acc.reverse ++ l.map f)
  | [], acc => by simp [List.mapM.loop, pure, Except.pure]
  | a :: l, acc => by
      simp [List.mapM.loop, mapM_loop_ok f l, Bind.bind, Except.bind]

theorem mapM_ok {α β : Type} (f : α → β) (l : List α) :
    (List.mapM (fun a => Except.ok (f a)) l : Except String (List β)) = .ok (l.map f) := by
  simpa using mapM_loop_ok f l []

theorem process_word_finite (w : List Char) (q : ℚ) :
    process_word w (.finite q) = .ok (splitWord w q) := rfl

theorem transform_finite (text : List Char) (q : ℚ) :
    transform text (.finite q) = .ok (pureTransform text q) := by
  unfold transform pureTransform
  have h : ∀ para : List Char,
      ((pySplit para).mapM fun w => process_word w (.finite q)) =
        Except.ok ((pySplit para).map fun w => splitWord w q) := by
    intro para
    have := mapM_ok (fun w => splitWord w q) (pySplit para)
    simpa [process_word_finite] using this
  calc (splitNL text).mapM (fun para => (pySplit para).mapM fun w => process_word w (.finite q))
      = (splitNL text).mapM (fun para => Except.ok ((pySplit para).map fun w => splitWord w q)) := by
        simp only [h]
    _ = .ok ((splitNL text).map fun para => (pySplit para).map fun w => splitWord w q) :=
        mapM_ok _ _

theorem boldIdx_le (n : ℕ) (q : ℚ) : boldIdx n q ≤ n := by
  unfold boldIdx pySliceIdx
  split <;> omega

theorem splitWord_append (w : List Char) (q : ℚ) :
    (splitWord w q).1 ++ (splitWord w q).2 = w := by
  simp [splitWord]

theorem splitWord_fst_length (w : List Char) (q : ℚ) :
    (splitWord w q).1.length = boldIdx w.length q := by
  simp [splitWord]
  exact boldIdx_le _ _

theorem boldIdx_zero (n : ℕ) : boldIdx n 0 = 0 := by
  unfold boldIdx
  rw [mul_zero, Int.ceil_zero]
  simp [pySliceIdx]

theorem boldIdx_one (n : ℕ) : boldIdx n 1 = n := by
  unfold boldIdx
  rw [mul_one, Int.ceil_natCast]
  simp [pySliceIdx]

theorem splitWord_zero (w : List Char) : splitWord w 0 = ([], w) := by
  simp [splitWord, boldIdx_zero]

theorem splitWord_one (w : List Char) : splitWord w 1 = (w, []) := by
  simp [splitWord, boldIdx_one]

theorem boldIdx_of_le_neg_one (n : ℕ) (q : ℚ) (h : q ≤ -1) : boldIdx n q = 0 := by
  have hmul : (n : ℚ) * q ≤ (n : ℚ) * (-1) :=
    mul_le_mul_of_nonneg_left h (Nat.cast_nonneg n)
  have hcast : ((n : ℚ)) * (-1) = ((-(n : ℤ) : ℤ) : ℚ) := by push_cast; ring
  have hidx : ⌈(n : ℚ) * q⌉ ≤ -(n : ℤ) := by
    calc ⌈(n : ℚ) * q⌉ ≤ ⌈((-(n : ℤ) : ℤ) : ℚ)⌉ := Int.ceil_mono (hcast ▸ hmul)
      _ = -(n : ℤ) := Int.ceil_intCast _
  unfold boldIdx pySliceIdx
  split <;> omega

theorem splitWord_of_le_neg_one (w : List Char) (q : ℚ) (h : q ≤ -1) :
    splitWord w q = ([], w) := by
  simp [splitWord, boldIdx_of_le_neg_one _ _ h]

theorem boldIdx_of_one_lt (n : ℕ) (q : ℚ) (h : 1 < q) : boldIdx n q = n := by
  have hmul : (n : ℚ) * 1 ≤ (n : ℚ) * q :=
    mul_le_mul_of_nonneg_left h.le (Nat.cast_nonneg n)
  have hidx : (n : ℤ) ≤ ⌈(n : ℚ) * q⌉ := by
    calc (n : ℤ) = ⌈((n : ℕ) : ℚ)⌉ := (Int.ceil_natCast n).symm
      _ ≤ ⌈(n : ℚ) * q⌉ := Int.ceil_mono (by simpa using hmul)
  unfold boldIdx pySliceIdx
  split <;> omega

theorem splitWord_of_one_lt (w : List Char) (q : ℚ) (h : 1 < q) :
    splitWord w q = (w, []) := by
  simp [splitWord, boldIdx_of_one_lt _ _ h]

theorem boldIdx_mono (n : ℕ) (q1 q2 : ℚ) (h0 : 0 ≤ q1) (h12 : q1 ≤ q2) :
    boldIdx n q1 ≤ boldIdx n q2 := by
  have hle : ⌈(n : ℚ) * q1⌉ ≤ ⌈(n : ℚ) * q2⌉ :=
    Int.ceil_mono (mul_le_mul_of_nonneg_left h12 (Nat.cast_nonneg n))
  have hnn : 0 ≤ ⌈(n : ℚ) * q1⌉ :=
    Int.ceil_nonneg (mul_nonneg (Nat.cast_nonneg n) h0)
  unfold boldIdx pySliceIdx
  split <;> split <;> omega

theorem boldIdx_5_half : boldIdx 5 (1/2) = 3 := by
  have h : ⌈((5 : ℕ) : ℚ) * (1/2)⌉ = 3 := by
    push_cast
    norm_num [Int.ceil_eq_iff]
  unfold boldIdx
  rw [h]
  rfl

theorem boldIdx_1_half : boldIdx 1 (1/2) = 1 := by
  have h : ⌈((1 : ℕ) : ℚ) * (1/2)⌉ = 1 := by
    push_cast
    norm_num [Int.ceil_eq_iff]
  unfold boldIdx
  rw [h]
  rfl

theorem boldIdx_4_negq : boldIdx 4 (-1/4) = 3 := by
  have h : ⌈((4 : ℕ) : ℚ) * (-1/4)⌉ = -1 := by
    push_cast
    norm_num [Int.ceil_eq_iff]
  unfold boldIdx
  rw [h]
  rfl

theorem boldIdx_4_nege : boldIdx 4 (-1/8) = 0 := by
  have h : ⌈((4 : ℕ) : ℚ) * (-1/8)⌉ = 0 := by
    push_cast
    norm_num [Int.ceil_eq_iff]
  unfold boldIdx
  rw [h]
  rfl

theorem splitWord_hello : splitWord "hello".toList (1/2) = ("hel".toList, "lo".toList) := by
  unfold splitWord
  rw [show "hello".toList.length = 5 from rfl, boldIdx_5_half]
  rfl

theorem splitWord_world : splitWord "world".toList (1/2) = ("wor".toList, "ld".toList) := by
  unfold splitWord
  rw [show "world".toList.length = 5 from rfl, boldIdx_5_half]
  rfl

theorem splitWord_a : splitWord "a".toList (1/2) = ("a".toList, []) := by
  unfold splitWord
  rw [show "a".toList.length = 1 from rfl, boldIdx_1_half]
  rfl

theorem splitWord_b : splitWord "b".toList (1/2) = ("b".toList, []) := by
  unfold splitWord
  rw [show "b".toList.length = 1 from rfl, boldIdx_1_half]
  rfl

theorem splitWord_test_negq : splitWord "test".toList (-1/4) = ("tes".toList, "t".toList) := by
  unfold splitWord
  rw [show "test".toList.length = 4 from rfl, boldIdx_4_negq]
  rfl

theorem splitWord_test_nege : splitWord "test".toList (-1/8) = ([], "test".toList) := by
  unfold splitWord
  rw [show "test".toList.length = 4 from rfl, boldIdx_4_nege]
  rfl

theorem transform_hello :
    transform "hello world".toList (.finite (1/2)) =
      .ok [[("hel".toList, "lo".toList), ("wor".toList, "ld".toList)]] := by
  rw [transform_finite]
  unfold pureTransform
  rw [show splitNL "hello world".toList = ["hello world".toList] from by decide]
  simp only [List.map_cons, List.map_nil]
  rw [show pySplit "hello world".toList = ["hello".toList, "world".toList] from by decide]
  simp only [List.map_cons, List.map_nil]
  rw [splitWord_hello, splitWord_world]

theorem transform_anb :
    transform "a\n\nb".toList (.finite (1/2)) =
      .ok [[("a".toList, [])], [], [("b".toList, [])]] := by
  rw [transform_finite]
  unfold pureTransform
  rw [show splitNL "a\n\nb".toList = ["a".toList, [], "b".toList] from by decide]
  simp only [List.map_cons, List.map_nil]
  rw [show pySplit "a".toList = ["a".toList] from by decide,
      show pySplit "b".toList = ["b".toList] from by decide,
      show pySplit [] = [] from rfl]
  simp only [List.map_cons, List.map_nil]
  rw [splitWord_a, splitWord_b]

theorem transform_test_neg1 :
    transform "test".toList (.finite (-1)) = .ok [[([], "test".toList)]] := by
  rw [transform_finite]
  unfold pureTransform
  rw [show splitNL "test".toList = ["test".toList] from by decide]
  simp only [List.map_cons, List.map_nil]
  rw [show pySplit "test".toList = ["test".toList] from by decide]
  simp only [List.map_cons, List.map_nil]
  rw [splitWord_of_le_neg_one "test".toList (-1) (by norm_num)]

theorem transform_test_two :
    transform "test".toList (.finite 2) = .ok [[("test".toList, [])]] := by
  rw [transform_finite]
  unfold pureTransform
  rw [show splitNL "test".toList = ["test".toList] from by decide]
  simp only [List.map_cons, List.map_nil]
  rw [show pySplit "test".toList = ["test".toList] from by decide]
  simp only [List.map_cons, List.map_nil]
  rw [splitWord_of_one_lt "test".toList 2 (by norm_num)]

theorem transform_test_negq :
    transform "test".toList (.finite (-1/4)) = .ok [[("tes".toList, "t".toList)]] := by
  rw [transform_finite]
  unfold pureTransform
  rw [show splitNL "test".toList = ["test".toList] from by decide]
  simp only [List.map_cons, List.map_nil]
  rw [show pySplit "test".toList = ["test".toList] from by decide]
  simp only [List.map_cons, List.map_nil]
  rw [splitWord_test_negq]

theorem transform_test_nege :
    transform "test".toList (.finite (-1/8)) = .ok [[([], "test".toList)]] := by
  rw [transform_finite]
  unfold pureTransform
  rw [show splitNL "test".toList = ["test".toList] from by decide]
  simp only [List.map_cons, List.map_nil]
  rw [show pySplit "test".toList = ["test".toList] from by decide]
  simp only [List.map_cons, List.map_nil]
  rw [splitWord_test_nege]

theorem transform_test_nan :
    transform "test".toList .nan = .error "ValueError" := rfl

theorem zip_map_all {α β : Type} (f : α → β) (p : α → β → Bool)
    (h : ∀ a, p a (f a) = true) :
    ∀ l : List α, ((l.zip (l.map f)).all fun pr => p pr.1 pr.2) = true
  | [] => rfl
  | a :: l => by
      rw [List.map_cons, List.zip_cons_cons, List.all_cons, h a, zip_map_all f p h l]
      rfl

theorem pw_test_zero : process_word "test".toList (.finite 0) = .ok ([], "test".toList) := by
  rw [process_word_finite, splitWord_zero]

theorem pw_test_two : process_word "test".toList (.finite 2) = .ok ("test".toList, []) := by
  rw [process_word_finite, splitWord_of_one_lt _ _ one_lt_two]

/-! ### Claims -/

/-- Claim C1, counterexample: the transform is not total over non-finite
ratios — for `ratio = NaN` the call `math.ceil(len("test") * nan)` raises
`ValueError` instead of resolving to `idxBold = 0`, so
`transform("test", nan)` produces no `(boldPart, normalPart)` pairs at
all. -/
theorem claim_C1_counterexample :
    transform "test".toList PyFloat.nan = .error "ValueError" ∧
      (transform "test".toList PyFloat.nan).isOk = false :=
  ⟨transform_test_nan, rfl⟩

/-- Claim C1, amended: the transform never raises for any string input and
any finite float ratio; for `ratio = NaN` or `±infinity` the `math.ceil`
call raises (`ValueError` or `OverflowError`) whenever the input contains
at least one word, so totality fails there. -/
theorem claim_C1_total_finite (text : List Char) (q : ℚ) :
    ∃ out, transform text (PyFloat.finite q) = .ok out :=
  ⟨_, transform_finite text q⟩

/-- Claim C2: lossless concatenation — for every input text and every
finite ratio the transform succeeds, and concatenating the bold and normal
parts of each output segment recovers exactly the corresponding word of
the input (no characters added, removed, or reordered). -/
theorem claim_C2_lossless (text : List Char) (q : ℚ) :
    ∃ out, transform text (PyFloat.finite q) = .ok out ∧
      out.map (List.map fun s => s.1 ++ s.2) = (splitNL text).map pySplit := by
  refine ⟨_, transform_finite text q, ?_⟩
  unfold pureTransform
  rw [List.map_map]
  have hinner : ∀ p : List Char,
      ((pySplit p).map fun w => splitWord w q).map (fun s => s.1 ++ s.2) = pySplit p := by
    intro p
    rw [List.map_map]
    have hf : ((fun s : List Char × List Char => s.1 ++ s.2) ∘ fun w => splitWord w q) =
        fun w : List Char => w :=
      funext fun w => splitWord_append w q
    rw [hf, List.map_id']
  have hcomp : ((List.map fun s : List Char × List Char => s.1 ++ s.2) ∘
      fun p : List Char => (pySplit p).map fun w => splitWord w q) = pySplit :=
    funext fun p => hinner p
  rw [hcomp]

/-- Claim C3, counterexample: a negative ratio need not produce an empty
bold part — at `ratio = -0.25` the word `"test"` gets
`idx_bold = ceil(4 * -0.25) = -1`, and Python slicing with a negative
index yields `("tes", "t")`, not `("", "test")`. -/
theorem claim_C3_counterexample :
    transform "test".toList (PyFloat.finite (-1/4)) =
        .ok [[("tes".toList, "t".toList)]] ∧
      "tes".toList ≠ ([] : List Char) :=
  ⟨transform_test_negq, by decide⟩

/-- Claim C3, amended: any ratio `≤ -1` yields an empty bold part
(`boldPart = ""`, `normalPart = w`) and any ratio `> 1` yields an empty
normal part (`boldPart = w`, `normalPart = ""`); in particular
`transform("test", -1.0) = [("", "test")]` and
`transform("test", 2.0) = [("test", "")]`.  (For `-1 < ratio < 0` the
negative index is interpreted from the end of the word instead.) -/
theorem claim_C3_policy (w : List Char) (q : ℚ) :
    (q ≤ -1 → process_word w (PyFloat.finite q) = .ok ([], w)) ∧
      (1 < q → process_word w (PyFloat.finite q) = .ok (w, [])) ∧
      transform "test".toList (PyFloat.finite (-1)) = .ok [[([], "test".toList)]] ∧
      transform "test".toList (PyFloat.finite 2) = .ok [[("test".toList, [])]] := by
  refine ⟨fun h => ?_, fun h => ?_, transform_test_neg1, transform_test_two⟩
  · rw [process_word_finite, splitWord_of_le_neg_one _ _ h]
  · rw [process_word_finite, splitWord_of_one_lt _ _ h]

/-- Witness for the amended claim C3 at the concrete inputs
`("test", -1.0)` and `("test", 2.0)`. -/
theorem claim_C3_policy_witness :
    process_word "test".toList (PyFloat.finite (-1)) = .ok ([], "test".toList) ∧
      process_word "test".toList (PyFloat.finite 2) = .ok ("test".toList, []) :=
  ⟨(claim_C3_policy "test".toList (-1)).1 (le_refl (-1 : ℚ)),
   (claim_C3_policy "test".toList 2).2.1 one_lt_two⟩

/-- Claim C4, counterexample: ratio monotonicity fails for negative
ratios — for the word `"test"`, `-0.25 ≤ -0.125` but the bold part at
`-0.25` is `"tes"` (length 3, by negative-index slicing) while at
`-0.125` it is `""` (length 0). -/
theorem claim_C4_counterexample :
    ((-1/4 : ℚ) ≤ -1/8) ∧
      transform "test".toList (PyFloat.finite (-1/4)) =
        .ok [[("tes".toList, "t".toList)]] ∧
      transform "test".toList (PyFloat.finite (-1/8)) =
        .ok [[([], "test".toList)]] ∧
      ¬("tes".toList.length ≤ ([] : List Char).length) :=
  ⟨by norm_num, transform_test_negq, transform_test_nege, by decide⟩

/-- Claim C4, amended: for every fixed word and every pair of nonnegative
finite ratios `q1 ≤ q2`, the bold part produced at `q1` is no longer than
the bold part produced at `q2` (monotonicity holds on `[0, ∞)`; negative
ratios violate it via negative-index slicing). -/
theorem claim_C4_mono (w : List Char) (q1 q2 : ℚ) (p1 p2 : List Char × List Char)
    (h0 : 0 ≤ q1) (h12 : q1 ≤ q2)
    (hp1 : process_word w (PyFloat.finite q1) = .ok p1)
    (hp2 : process_word w (PyFloat.finite q2) = .ok p2) :
    p1.1.length ≤ p2.1.length := by
  rw [process_word_finite] at hp1 hp2
  injection hp1 with hp1
  injection hp2 with hp2
  rw [← hp1, ← hp2, splitWord_fst_length, splitWord_fst_length]
  exact boldIdx_mono _ _ _ h0 h12

/-- Witness for the amended claim C4 at the word `"test"` with ratios
`0 ≤ 2`. -/
theorem claim_C4_mono_witness :
    ([] : List Char).length ≤ "test".toList.length :=
  claim_C4_mono "test".toList 0 2 ([], "test".toList) ("test".toList, [])
    (le_refl 0) (by norm_num) pw_test_zero pw_test_two

/-- Claim C5: boundary behaviour — at ratio `0.0` every output segment
has an empty bold part (the whole word is the normal part), and at ratio
`1.0` every output segment has an empty normal part (the whole word is the
bold part). -/
theorem claim_C5_boundary (text : List Char) :
    transform text (PyFloat.finite 0) =
        .ok ((splitNL text).map fun p => (pySplit p).map fun w => (([] : List Char), w)) ∧
      transform text (PyFloat.finite 1) =
        .ok ((splitNL text).map fun p => (pySplit p).map fun w => (w, ([] : List Char))) := by
  constructor
  · rw [transform_finite]
    unfold pureTransform
    rw [funext fun w : List Char => splitWord_zero w]
  · rw [transform_finite]
    unfold pureTransform
    rw [funext fun w : List Char => splitWord_one w]

/-- Claim C6: paragraph count preservation — the transform succeeds for
every finite ratio with one output paragraph per newline-delimited segment
of the input (matching Python split semantics, where `"a\nb"` gives two
segments and `"a\n"` a trailing empty one), and every empty input segment
yields a paragraph with zero segments. -/
theorem claim_C6_paragraphs (text : List Char) (q : ℚ) :
    ∃ out, transform text (PyFloat.finite q) = .ok out ∧
      out.length = (splitNL text).length ∧
      (((splitNL text).zip out).all fun pr => !pr.1.isEmpty || pr.2.isEmpty) = true ∧
      splitNL "a\nb".toList = ["a".toList, "b".toList] ∧
      splitNL "a\n".toList = ["a".toList, []] := by
  refine ⟨_, transform_finite text q, ?_, ?_, by decide, by decide⟩
  · unfold pureTransform
    rw [List.length_map]
  · unfold pureTransform
    refine zip_map_all (fun para => (pySplit para).map fun w => splitWord w q)
      (fun a b => !a.isEmpty || b.isEmpty) ?_ (splitNL text)
    intro p
    cases p with
    | nil => rfl
    | cons c cs => rfl

/-- Claim C7: concrete split arithmetic — `transform("hello world", 0.5)`
produces one paragraph `[("hel","lo"), ("wor","ld")]` (since
`ceil(5 * 0.5) = 3` for both five-letter words), and
`transform("a\n\nb", 0.5)` produces the three paragraphs
`[("a","")]`, `[]`, `[("b","")]`. -/
theorem claim_C7_concrete :
    transform "hello world".toList (PyFloat.finite (1/2)) =
        .ok [[("hel".toList, "lo".toList), ("wor".toList, "ld".toList)]] ∧
      transform "a\n\nb".toList (PyFloat.finite (1/2)) =
        .ok [[("a".toList, [])], [], [("b".toList, [])]] :=
  ⟨transform_hello, transform_anb⟩

/-- Claim C8: empty input — for every float ratio, finite or not,
`transform("", r)` yields exactly one paragraph containing zero segments
(no word is ever processed, so even `NaN` cannot make it raise). -/
theorem claim_C8_empty (r : PyFloat) : transform [] r = .ok [[]] := rfl

/-- Claim C9: determinism and purity — two `process_text` calls on states
agreeing on the input text and the bionic ratio produce identical output
text, and a call never mutates its inputs: the resulting state keeps the
input text and the whole options record unchanged. -/
theorem claim_C9_pure (s1 s2 : GUIState)
    (ht : s1.input_text = s2.input_text)
    (hr : s1.textOptions.bionic_ratio = s2.textOptions.bionic_ratio) :
    (process_text s1).map GUIState.output_text =
        (process_text s2).map GUIState.output_text ∧
      ∀ s3, process_text s1 = .ok s3 →
        s3.input_text = s1.input_text ∧ s3.textOptions = s1.textOptions := by
  constructor
  · unfold process_text
    rw [ht, hr]
    cases transform s2.input_text s2.textOptions.bionic_ratio with
    | error e => rfl
    | ok out => rfl
  · intro s3 h3
    unfold process_text at h3
    cases htr : transform s1.input_text s1.textOptions.bionic_ratio with
    | error e =>
        rw [htr] at h3
        exact absurd h3 (by simp)
    | ok out =>
        rw [htr] at h3
        injection h3 with h3
        rw [← h3]
        exact ⟨rfl, rfl⟩

/-- Witness for claim C9: two concrete states sharing input text `""` and
ratio `0.5` but with different prior output contents give identical output,
and the state after the call keeps its input fields. -/
theorem claim_C9_pure_witness :
    (process_text ⟨[], ⟨"Aptos Display".toList, 12, 1, PyFloat.finite (1/2)⟩, []⟩).map
        GUIState.output_text =
      (process_text ⟨[], ⟨"Aptos Display".toList, 12, 1, PyFloat.finite (1/2)⟩,
        "x".toList⟩).map GUIState.output_text ∧
      (⟨[], ⟨"Aptos Display".toList, 12, 1, PyFloat.finite (1/2)⟩,
          ['\n', '\n']⟩ : GUIState).input_text =
        (⟨[], ⟨"Aptos Display".toList, 12, 1, PyFloat.finite (1/2)⟩, []⟩ : GUIState).input_text ∧
      (⟨[], ⟨"Aptos Display".toList, 12, 1, PyFloat.finite (1/2)⟩,
          ['\n', '\n']⟩ : GUIState).textOptions =
        (⟨[], ⟨"Aptos Display".toList, 12, 1, PyFloat.finite (1/2)⟩, []⟩ : GUIState).textOptions :=
  ⟨(claim_C9_pure _ _ rfl rfl).1,
   (claim_C9_pure ⟨[], ⟨"Aptos Display".toList, 12, 1, PyFloat.finite (1/2)⟩, []⟩
      ⟨[], ⟨"Aptos Display".toList, 12, 1, PyFloat.finite (1/2)⟩, "x".toList⟩ rfl rfl).2
     ⟨[], ⟨"Aptos Display".toList, 12, 1, PyFloat.finite (1/2)⟩, ['\n', '\n']⟩ rfl⟩

/-- Claim C10 (implicit): for every word and every finite ratio — with no
clamping performed by the code — the bold part is a prefix of the word and
the normal part the matching suffix: the pair is `(w[:k], w[k:])` for an
effective index `k ≤ len(w)`, and the lengths add up to `len(w)`. -/
theorem claim_C10_slice (w : List Char) (q : ℚ) :
    ∃ k ≤ w.length, process_word w (PyFloat.finite q) = .ok (w.take k, w.drop k) ∧
      (w.take k).length + (w.drop k).length = w.length := by
  refine ⟨boldIdx w.length q, boldIdx_le _ _, ?_, ?_⟩
  · rw [process_word_finite]
    rfl
  · rw [List.length_take, List.length_drop]
    omega
